import Mathlib

/-
Formal model of the cryptag backend package (src/backend/backend.go):
TagPair construction, single tag creation, concurrent batch tag creation,
and row population before save.

The Go code's external effects are captured by an explicit environment:
an entropy stream for random-tag generation, a per-launch nonce source,
the symmetric encryption capability, and per-launch persistence outcomes.
Goroutines write to dedicated channels allocated in launch order and the
aggregator drains the channels in that order, so each launch's result is
a deterministic function of the environment and its launch index; the
backend's saved list records persistence effects in launch order.
-/

set_option autoImplicit false

namespace Cryptag

abbrev Bytes := List Nat

abbrev Key := List Nat

def RANDOM_TAG_ALPHABET : String := "abcdefghijklmnopqrstuvwxyz0123456789"

def RANDOM_TAG_LENGTH : Nat := 9

/-- Modelled from the spec: the types.TagPair record binding a plaintext tag to
its random substitute, the nonce used, and the ciphertext of the plaintext
(the types package is outside src/). -/
structure TagPair where
  PlainEncrypted : Bytes
  Random : String
  Nonce : Bytes
  plain : String
deriving DecidableEq

/-- Modelled from the spec: types.TagPair.Plain returns the locally retained plaintext. -/
def TagPair.Plain (pr : TagPair) : String := pr.plain

abbrev TagPairs := List TagPair

/-- Modelled from the spec: types.TagPairs.AllPlain collects the plaintext values
of a collection of TagPairs. -/
def TagPairs.AllPlain (prs : TagPairs) : List String := prs.map TagPair.Plain

/-- Modelled from the spec: fun.SliceContains reports whether a string slice
contains the given string (external helper library). -/
def SliceContains (l : List String) (s : String) : Bool := l.contains s

/-- Modelled from the spec: the types.Row record: plaintext tags (local only),
random tags (computed by population), cleartext payload (local only),
encrypted payload, and the payload nonce (set by the caller). -/
structure Row where
  plainTags : List String
  RandomTags : List String
  decrypted : Bytes
  Encrypted : Bytes
  Nonce : Bytes
deriving DecidableEq

/-- Modelled from the spec: types.Row.PlainTags accessor. -/
def Row.PlainTags (r : Row) : List String := r.plainTags

/-- Modelled from the spec: types.Row.Decrypted accessor. -/
def Row.Decrypted (r : Row) : Bytes := r.decrypted

/-- The backend capability as used by the core pipeline: Name, Key, and the
SaveTagPair persistence effect.  The saved field records the TagPairs
persisted so far. -/
structure Backend where
  name : String
  key : Key
  saved : TagPairs
deriving DecidableEq

/-- The external world of one call: entropy i j is the j-th random draw made by
launch i's RandomString call; randomNonce i is launch i's nonce (none models a
CryptoError); encrypt is the symmetric encryption capability (none models a
CryptoError); saveOk i tells whether launch i's SaveTagPair call succeeds. -/
structure Env where
  entropy : Nat → Nat → Nat
  randomNonce : Nat → Option Bytes
  encrypt : Bytes → Bytes → Key → Option Bytes
  saveOk : Nat → Bool

def strBytes (s : String) : Bytes := s.data.map Char.toNat

/-- Modelled from the spec: fun.RandomString draws a string of the given length
over the given alphabet from a cryptographically secure source, here made
explicit as an entropy stream (external helper library). -/
def RandomString (alphabet : String) (n : Nat) (entropy : Nat → Nat) : String :=
  String.mk ((List.range n).map (fun j => alphabet.data.getD (entropy j % alphabet.data.length) 'a'))

/-- NewTagPair: draw the random tag, get a fresh nonce, encrypt the plaintext
tag, and build the TagPair.  none models the error returns. -/
def NewTagPair (env : Env) (i : Nat) (key : Key) (plaintag : String) : Option TagPair :=
  let rand := RandomString RANDOM_TAG_ALPHABET RANDOM_TAG_LENGTH (env.entropy i)
  match env.randomNonce i with
  | none => none
  | some nonce =>
    match env.encrypt (strBytes plaintag) nonce key with
    | none => none
    | some plainEnc =>
      some { PlainEncrypted := plainEnc, Random := rand, Nonce := nonce, plain := plaintag }

/-- CreateTag: NewTagPair with the backend's key, then SaveTagPair.  Returns the
backend after the persistence attempt and the created pair (none models the
error returns, in which case the goroutine sends nil on its channel). -/
def CreateTag (env : Env) (i : Nat) (bk : Backend) (plaintag : String) : Backend × Option TagPair :=
  match NewTagPair env i bk.key plaintag with
  | none => (bk, none)
  | some pair =>
    if env.saveOk i then ({ bk with saved := bk.saved ++ [pair] }, some pair)
    else (bk, none)

/-- The members of plaintags launched by CreateTagsFromPlain: those without an
existing, corresponding TagPair in pairs, kept in scan order (duplicates in
plaintags are kept: existingPlain is computed once, before the loop). -/
def missingPlain (plaintags : List String) (pairs : TagPairs) : List String :=
  plaintags.filter (fun plain => !SliceContains (TagPairs.AllPlain pairs) plain)

/-- The goroutines launched by CreateTagsFromPlain, run in launch order (the
chosen serialization of the concurrent saves); the result list holds channel
i's value at position i, which is schedule-independent. -/
def runGoroutines (env : Env) : Backend → List String → Nat → Backend × List (Option TagPair)
  | bk, [], _ => (bk, [])
  | bk, plain :: rest, i =>
    let r := CreateTag env i bk plain
    let later := runGoroutines env r.1 rest (i + 1)
    (later.1, r.2 :: later.2)

structure CreateResult where
  backend : Backend
  newPairs : TagPairs
  err : Option String
deriving DecidableEq

/-- CreateTagsFromPlain: launch one goroutine per missing plaintag, drain the
dedicated channels in launch order appending only non-nil results, and return
newPairs with a nil error. -/
def CreateTagsFromPlain (env : Env) (bk : Backend) (plaintags : List String) (pairs : TagPairs) :
    CreateResult :=
  let r := runGoroutines env bk (missingPlain plaintags pairs) 0
  { backend := r.1, newPairs := r.2.filterMap id, err := none }

inductive PopErr where
  | createTags : String → PopErr
  | missingTagPair : String → PopErr
  | encryptData : PopErr
deriving DecidableEq

/-- The inner loop of PopulateRowBeforeSave over allTagPairs with index i and
n = the length of the full list: break with the pair's Random on the first
match; return the error when i reaches n - 1 without a match; when the list is
empty the body never runs and the loop falls through with no random appended. -/
def scanLoopGo (plain : String) (n : Nat) : TagPairs → Nat → Except String (Option String)
  | [], _ => Except.ok none
  | pair :: rest, i =>
    if plain == TagPair.Plain pair then Except.ok (some pair.Random)
    else if i == n - 1 then Except.error plain
    else scanLoopGo plain n rest (i + 1)

/-- The outer loop of PopulateRowBeforeSave: for each plain tag in order, scan
allTagPairs; append the matched Random, abort with the unmatched plain tag, or
(only when allTagPairs is empty) append nothing and continue. -/
def resolveRandTags (allTagPairs : TagPairs) : List String → Except String (List String)
  | [] => Except.ok []
  | plain :: rest =>
    match scanLoopGo plain allTagPairs.length allTagPairs 0 with
    | Except.error p => Except.error p
    | Except.ok none => resolveRandTags allTagPairs rest
    | Except.ok (some rand) =>
      match resolveRandTags allTagPairs rest with
      | Except.error p => Except.error p
      | Except.ok rts => Except.ok (rand :: rts)

/-- The result a single launch's channel carries, as a pure function of the
environment, the backend key and the launch index (the saved-list state never
influences a launch's outcome). -/
def CreateTagOutcome (env : Env) (key : Key) (i : Nat) (plaintag : String) : Option TagPair :=
  match NewTagPair env i key plaintag with
  | none => none
  | some pair => if env.saveOk i then some pair else none

/-- The channel values of the launches for the given plaintags, starting at
launch index i. -/
def goResults (env : Env) (key : Key) : List String → Nat → List (Option TagPair)
  | [], _ => []
  | plain :: rest, i => CreateTagOutcome env key i plain :: goResults env key rest (i + 1)

/-- The sublist of the given plaintags whose launches (numbered from i) succeed. -/
def filterSucc (env : Env) (key : Key) : List String → Nat → List String
  | [], _ => []
  | plain :: rest, i =>
    if (CreateTagOutcome env key i plain).isSome then plain :: filterSucc env key rest (i + 1)
    else filterSucc env key rest (i + 1)

/-- A random tag drawn from the 36-symbol lowercase-alphanumeric alphabet with
length RANDOM_TAG_LENGTH. -/
def randomWellFormed (pr : TagPair) : Bool :=
  pr.Random.length == RANDOM_TAG_LENGTH &&
    pr.Random.data.all (fun c => RANDOM_TAG_ALPHABET.data.contains c)

/-- The Random value of the first TagPair of allPairs whose plaintext equals
plain, when one exists. -/
def firstMatchRandom (allPairs : TagPairs) (plain : String) : Option String :=
  Option.map TagPair.Random (List.find? (fun pr => plain == TagPair.Plain pr) allPairs)

/-- First-match resolution of a list of plain tags against allPairs, skipping
tags with no match. -/
def firstMatchRandoms (allPairs : TagPairs) (plaintags : List String) : List String :=
  plaintags.filterMap (firstMatchRandom allPairs)

structure PopulateResult where
  backend : Backend
  row : Row
  newPairs : TagPairs
  err : Option PopErr
deriving DecidableEq

/-- PopulateRowBeforeSave: batch-create the missing tags, resolve every plain
tag of the row against pairs ++ newPairs (setting row.RandomTags), then encrypt
the payload under the backend's key and the row's nonce (setting
row.Encrypted).  newPairs is returned on every path. -/
def PopulateRowBeforeSave (env : Env) (bk : Backend) (row : Row) (pairs : TagPairs) :
    PopulateResult :=
  let cr := CreateTagsFromPlain env bk (Row.PlainTags row) pairs
  match cr.err with
  | some msg =>
    { backend := cr.backend, row := row, newPairs := cr.newPairs,
      err := some (PopErr.createTags msg) }
  | none =>
    let allTagPairs := pairs ++ cr.newPairs
    match resolveRandTags allTagPairs (Row.PlainTags row) with
    | Except.error plain =>
      { backend := cr.backend, row := row, newPairs := cr.newPairs,
        err := some (PopErr.missingTagPair plain) }
    | Except.ok randtags =>
      let row1 := { row with RandomTags := randtags }
      match env.encrypt (Row.Decrypted row1) row1.Nonce bk.key with
      | none =>
        { backend := cr.backend, row := row1, newPairs := cr.newPairs,
          err := some PopErr.encryptData }
      | some encData =>
        { backend := cr.backend, row := { row1 with Encrypted := encData },
          newPairs := cr.newPairs, err := none }

/-- A world where every nonce draw, encryption and persistence succeeds; launch
i's entropy stream starts at i, so distinct launches draw distinct randoms. -/
def envAllOk : Env :=
  { entropy := fun i j => i + j, randomNonce := fun _ => some [0],
    encrypt := fun data _ _ => some data, saveOk := fun _ => true }

/-- A world where cryptography succeeds but every SaveTagPair call fails, so
every launch reports failure. -/
def envSaveFail : Env :=
  { entropy := fun _ _ => 0, randomNonce := fun _ => some [0],
    encrypt := fun data _ _ => some data, saveOk := fun _ => false }

/-- A world where everything succeeds except encrypting the payload [1]. -/
def envEncFail : Env :=
  { entropy := fun _ _ => 0, randomNonce := fun _ => some [0],
    encrypt := fun data _ _ => if data = [1] then none else some data,
    saveOk := fun _ => true }

def bk0 : Backend := { name := "fs", key := [0], saved := [] }

def rowA : Row :=
  { plainTags := ["a"], RandomTags := [], decrypted := [1], Encrypted := [9], Nonce := [2] }

def pairA : TagPair :=
  { PlainEncrypted := [10], Random := "r1r1r1r1r", Nonce := [5], plain := "a" }

def pairB : TagPair :=
  { PlainEncrypted := [11], Random := "r2r2r2r2r", Nonce := [6], plain := "b" }

theorem NewTagPair_plain (env : Env) (i : Nat) (key : Key) (plaintag : String) (pr : TagPair)
    (h : NewTagPair env i key plaintag = some pr) : TagPair.Plain pr = plaintag := by
  simp only [NewTagPair] at h
  split at h
  · exact absurd h (by simp)
  · split at h
    · exact absurd h (by simp)
    · cases h
      rfl

theorem NewTagPair_random (env : Env) (i : Nat) (key : Key) (plaintag : String) (pr : TagPair)
    (h : NewTagPair env i key plaintag = some pr) :
    pr.Random = RandomString RANDOM_TAG_ALPHABET RANDOM_TAG_LENGTH (env.entropy i) := by
  simp only [NewTagPair] at h
  split at h
  · exact absurd h (by simp)
  · split at h
    · exact absurd h (by simp)
    · cases h
      rfl

theorem CreateTagOutcome_plain (env : Env) (key : Key) (i : Nat) (plaintag : String) (pr : TagPair)
    (h : CreateTagOutcome env key i plaintag = some pr) : TagPair.Plain pr = plaintag := by
  simp only [CreateTagOutcome] at h
  split at h
  · exact absurd h (by simp)
  · split at h
    · cases h
      exact NewTagPair_plain env i key plaintag pr (by assumption)
    · exact absurd h (by simp)

theorem CreateTagOutcome_random (env : Env) (key : Key) (i : Nat) (plaintag : String) (pr : TagPair)
    (h : CreateTagOutcome env key i plaintag = some pr) :
    pr.Random = RandomString RANDOM_TAG_ALPHABET RANDOM_TAG_LENGTH (env.entropy i) := by
  simp only [CreateTagOutcome] at h
  split at h
  · exact absurd h (by simp)
  · split at h
    · cases h
      exact NewTagPair_random env i key plaintag pr (by assumption)
    · exact absurd h (by simp)

theorem CreateTag_snd (env : Env) (i : Nat) (bk : Backend) (plaintag : String) :
    (CreateTag env i bk plaintag).2 = CreateTagOutcome env bk.key i plaintag := by
  simp only [CreateTag, CreateTagOutcome]
  split
  · rfl
  · cases hs : env.saveOk i <;> simp [hs]

theorem CreateTag_key (env : Env) (i : Nat) (bk : Backend) (plaintag : String) :
    (CreateTag env i bk plaintag).1.key = bk.key := by
  simp only [CreateTag]
  split
  · rfl
  · cases hs : env.saveOk i <;> simp [hs]

theorem CreateTag_saved (env : Env) (i : Nat) (bk : Backend) (plaintag : String) :
    (CreateTag env i bk plaintag).1.saved
      = bk.saved ++ (CreateTagOutcome env bk.key i plaintag).toList := by
  simp only [CreateTag, CreateTagOutcome]
  split
  · simp
  · cases hs : env.saveOk i <;> simp [hs]

theorem runGoroutines_snd (env : Env) (l : List String) :
    ∀ (bk : Backend) (i : Nat), (runGoroutines env bk l i).2 = goResults env bk.key l i := by
  induction l with
  | nil => intro bk i; rfl
  | cons plain rest ih =>
    intro bk i
    simp only [runGoroutines, goResults]
    rw [ih, CreateTag_key, CreateTag_snd]

theorem runGoroutines_key (env : Env) (l : List String) :
    ∀ (bk : Backend) (i : Nat), (runGoroutines env bk l i).1.key = bk.key := by
  induction l with
  | nil => intro bk i; rfl
  | cons plain rest ih =>
    intro bk i
    simp only [runGoroutines]
    rw [ih, CreateTag_key]

theorem runGoroutines_saved (env : Env) (l : List String) :
    ∀ (bk : Backend) (i : Nat),
      (runGoroutines env bk l i).1.saved
        = bk.saved ++ (goResults env bk.key l i).filterMap id := by
  induction l with
  | nil => intro bk i; simp [runGoroutines, goResults]
  | cons plain rest ih =>
    intro bk i
    simp only [runGoroutines, goResults, List.filterMap_cons]
    rw [ih, CreateTag_key, CreateTag_saved]
    cases CreateTagOutcome env bk.key i plain <;> simp

theorem goResults_filterMap_map_plain (env : Env) (key : Key) (l : List String) :
    ∀ i : Nat, ((goResults env key l i).filterMap id).map TagPair.Plain = filterSucc env key l i := by
  induction l with
  | nil => intro i; rfl
  | cons plain rest ih =>
    intro i
    simp only [goResults, filterSucc, List.filterMap_cons]
    cases h : CreateTagOutcome env key i plain with
    | none => simp [ih]
    | some pr =>
      simp only [Option.isSome_some, if_pos, id, List.map_cons, ih]
      rw [CreateTagOutcome_plain env key i plain pr h]

theorem filterSucc_sublist (env : Env) (key : Key) (l : List String) :
    ∀ i : Nat, List.Sublist (filterSucc env key l i) l := by
  induction l with
  | nil => intro i; exact List.Sublist.refl []
  | cons plain rest ih =>
    intro i
    simp only [filterSucc]
    split
    · exact List.Sublist.cons₂ plain (ih (i + 1))
    · exact List.Sublist.cons plain (ih (i + 1))

theorem filterSucc_all_succeed (env : Env) (key : Key)
    (hall : ∀ (j : Nat) (q : String), (CreateTagOutcome env key j q).isSome = true)
    (l : List String) : ∀ i : Nat, filterSucc env key l i = l := by
  induction l with
  | nil => intro i; rfl
  | cons plain rest ih =>
    intro i
    simp only [filterSucc, hall i plain, if_pos]
    rw [ih]

theorem mem_goResults_filterMap (env : Env) (key : Key) (l : List String) :
    ∀ (i : Nat) (pr : TagPair), pr ∈ (goResults env key l i).filterMap id →
      ∃ (j : Nat) (q : String), CreateTagOutcome env key j q = some pr := by
  induction l with
  | nil => intro i pr h; simp [goResults] at h
  | cons plain rest ih =>
    intro i pr h
    simp only [goResults, List.filterMap_cons] at h
    cases hout : CreateTagOutcome env key i plain with
    | none =>
      rw [hout] at h
      exact ih (i + 1) pr h
    | some pr1 =>
      rw [hout] at h
      rcases List.mem_cons.mp h with heq | hmem
      · exact ⟨i, plain, heq ▸ hout⟩
      · exact ih (i + 1) pr hmem

theorem RandomString_length (alphabet : String) (n : Nat) (entropy : Nat → Nat) :
    (RandomString alphabet n entropy).length = n := by
  simp only [RandomString, String.length_mk, List.length_map, List.length_range]

theorem RandomString_mem (alphabet : String) (n : Nat) (entropy : Nat → Nat)
    (halph : 0 < alphabet.data.length) :
    ∀ c ∈ (RandomString alphabet n entropy).data, c ∈ alphabet.data := by
  intro c hc
  simp only [RandomString, List.mem_map, List.mem_range] at hc
  obtain ⟨j, _, hfj⟩ := hc
  have hlt : entropy j % alphabet.data.length < alphabet.data.length :=
    Nat.mod_lt _ halph
  rw [List.getD_eq_getElem?_getD, List.getElem?_eq_getElem hlt] at hfj
  exact hfj ▸ List.getElem_mem hlt

theorem scanLoopGo_error (plain : String) (n : Nat) :
    ∀ (l : TagPairs) (i : Nat), i + l.length = n →
      ∀ q : String, scanLoopGo plain n l i = Except.error q →
        q = plain ∧ ∀ pr ∈ l, plain ≠ TagPair.Plain pr := by
  intro l
  induction l with
  | nil => intro i hlen q h; simp [scanLoopGo] at h
  | cons pair rest ih =>
    intro i hlen q h
    simp only [scanLoopGo] at h
    split at h
    · simp at h
    · rename_i hm
      have hm' : (plain == TagPair.Plain pair) = false := by simpa using hm
      split at h
      · rename_i hi
        simp only [Except.error.injEq] at h
        have hlen0 : rest.length = 0 := by
          have hn : i = n - 1 := eq_of_beq hi
          simp only [List.length_cons] at hlen
          omega
        have hrest : rest = [] := List.eq_nil_of_length_eq_zero hlen0
        subst hrest
        refine ⟨h.symm, ?_⟩
        intro pr hpr
        rcases List.mem_singleton.mp hpr with rfl
        exact beq_eq_false_iff_ne.mp hm'
      · rename_i hi
        have hlen1 : (i + 1) + rest.length = n := by
          simp only [List.length_cons] at hlen
          omega
        obtain ⟨hq, hall⟩ := ih (i + 1) hlen1 q h
        refine ⟨hq, ?_⟩
        intro pr hpr
        rcases List.mem_cons.mp hpr with rfl | hmem
        · exact beq_eq_false_iff_ne.mp hm'
        · exact hall pr hmem

theorem scanLoopGo_ok_some (plain : String) (n : Nat) :
    ∀ (l : TagPairs) (i : Nat), i + l.length = n →
      ∀ r : String, scanLoopGo plain n l i = Except.ok (some r) →
        ∃ pr : TagPair,
          List.find? (fun x => plain == TagPair.Plain x) l = some pr ∧ r = pr.Random := by
  intro l
  induction l with
  | nil => intro i hlen r h; simp [scanLoopGo] at h
  | cons pair rest ih =>
    intro i hlen r h
    simp only [scanLoopGo] at h
    split at h
    · rename_i hm
      simp only [Except.ok.injEq, Option.some.injEq] at h
      exact ⟨pair, by simp [List.find?_cons, hm], h.symm⟩
    · rename_i hm
      have hm' : (plain == TagPair.Plain pair) = false := by simpa using hm
      split at h
      · simp at h
      · rename_i hi
        have hlen1 : (i + 1) + rest.length = n := by
          simp only [List.length_cons] at hlen
          omega
        obtain ⟨pr, hfind, hr⟩ := ih (i + 1) hlen1 r h
        exact ⟨pr, by simp [List.find?_cons, hm', hfind], hr⟩

theorem scanLoopGo_ok_none (plain : String) (n : Nat) :
    ∀ (l : TagPairs) (i : Nat), i + l.length = n →
      scanLoopGo plain n l i = Except.ok none → l = [] := by
  intro l
  induction l with
  | nil => intro i hlen h; rfl
  | cons pair rest ih =>
    intro i hlen h
    simp only [scanLoopGo] at h
    split at h
    · simp at h
    · rename_i hm
      split at h
      · simp at h
      · rename_i hi
        have hlen1 : (i + 1) + rest.length = n := by
          simp only [List.length_cons] at hlen
          omega
        have hrest := ih (i + 1) hlen1 h
        subst hrest
        have hin : i + 1 = n := by simpa using hlen
        have hieq : i = n - 1 := by omega
        exact absurd (by simp [hieq]) hi

theorem resolveRandTags_error (allPairs : TagPairs) :
    ∀ (tags : List String) (q : String),
      resolveRandTags allPairs tags = Except.error q →
        q ∈ tags ∧ ∀ pr ∈ allPairs, TagPair.Plain pr ≠ q := by
  intro tags
  induction tags with
  | nil => intro q h; simp [resolveRandTags] at h
  | cons plain rest ih =>
    intro q h
    simp only [resolveRandTags] at h
    cases hscan : scanLoopGo plain allPairs.length allPairs 0 with
    | error p =>
      rw [hscan] at h
      simp only [Except.error.injEq] at h
      subst h
      obtain ⟨hq, hall⟩ := scanLoopGo_error plain allPairs.length allPairs 0 (by omega) p hscan
      subst hq
      refine ⟨List.mem_cons_self _ _, ?_⟩
      intro pr hpr
      exact fun he => hall pr hpr he.symm
    | ok o =>
      rw [hscan] at h
      cases o with
      | none =>
        obtain ⟨hq, hall⟩ := ih q h
        exact ⟨List.mem_cons_of_mem _ hq, hall⟩
      | some rand =>
        cases hrec : resolveRandTags allPairs rest with
        | error p =>
          rw [hrec] at h
          simp only [Except.error.injEq] at h
          subst h
          obtain ⟨hq, hall⟩ := ih p hrec
          exact ⟨List.mem_cons_of_mem _ hq, hall⟩
        | ok rts => rw [hrec] at h; simp at h

theorem resolveRandTags_ok (allPairs : TagPairs) :
    ∀ (tags : List String) (rts : List String),
      resolveRandTags allPairs tags = Except.ok rts →
        rts = firstMatchRandoms allPairs tags := by
  intro tags
  induction tags with
  | nil =>
    intro rts h
    simp only [resolveRandTags, Except.ok.injEq] at h
    subst h
    rfl
  | cons plain rest ih =>
    intro rts h
    simp only [resolveRandTags] at h
    cases hscan : scanLoopGo plain allPairs.length allPairs 0 with
    | error p => rw [hscan] at h; simp at h
    | ok o =>
      rw [hscan] at h
      cases o with
      | none =>
        have hnil : allPairs = [] :=
          scanLoopGo_ok_none plain allPairs.length allPairs 0 (by omega) hscan
        subst hnil
        rw [ih rts h]
        simp [firstMatchRandoms, firstMatchRandom]
      | some rand =>
        obtain ⟨pr, hfind, hr⟩ :=
          scanLoopGo_ok_some plain allPairs.length allPairs 0 (by omega) rand hscan
        cases hrec : resolveRandTags allPairs rest with
        | error p => rw [hrec] at h; simp at h
        | ok rts1 =>
          rw [hrec] at h
          simp only [Except.ok.injEq] at h
          subst h
          rw [ih rts1 hrec]
          simp [firstMatchRandoms, firstMatchRandom, List.filterMap_cons, hfind, hr]

theorem createTags_newPairs_map_plain (env : Env) (bk : Backend) (plaintags : List String)
    (pairs : TagPairs) :
    ((CreateTagsFromPlain env bk plaintags pairs).newPairs.map TagPair.Plain)
      = filterSucc env bk.key (missingPlain plaintags pairs) 0 := by
  simp only [CreateTagsFromPlain]
  rw [runGoroutines_snd, goResults_filterMap_map_plain]

theorem createTags_saved (env : Env) (bk : Backend) (plaintags : List String) (pairs : TagPairs) :
    (CreateTagsFromPlain env bk plaintags pairs).backend.saved
      = bk.saved ++ (CreateTagsFromPlain env bk plaintags pairs).newPairs := by
  simp only [CreateTagsFromPlain]
  rw [runGoroutines_saved, runGoroutines_snd]

theorem createTags_mem_outcome (env : Env) (bk : Backend) (plaintags : List String)
    (pairs : TagPairs) (pr : TagPair) (h : pr ∈ (CreateTagsFromPlain env bk plaintags pairs).newPairs) :
    ∃ (j : Nat) (q : String), CreateTagOutcome env bk.key j q = some pr := by
  simp only [CreateTagsFromPlain] at h
  rw [runGoroutines_snd] at h
  exact mem_goResults_filterMap env bk.key (missingPlain plaintags pairs) 0 pr h

theorem populate_eq (env : Env) (bk : Backend) (row : Row) (pairs : TagPairs) :
    PopulateRowBeforeSave env bk row pairs =
      match resolveRandTags (pairs ++ (CreateTagsFromPlain env bk row.plainTags pairs).newPairs)
          row.plainTags with
      | Except.error plain =>
        { backend := (CreateTagsFromPlain env bk row.plainTags pairs).backend, row := row,
          newPairs := (CreateTagsFromPlain env bk row.plainTags pairs).newPairs,
          err := some (PopErr.missingTagPair plain) }
      | Except.ok randtags =>
        match env.encrypt row.decrypted row.Nonce bk.key with
        | none =>
          { backend := (CreateTagsFromPlain env bk row.plainTags pairs).backend,
            row := { row with RandomTags := randtags },
            newPairs := (CreateTagsFromPlain env bk row.plainTags pairs).newPairs,
            err := some PopErr.encryptData }
        | some encData =>
          { backend := (CreateTagsFromPlain env bk row.plainTags pairs).backend,
            row := { row with RandomTags := randtags, Encrypted := encData },
            newPairs := (CreateTagsFromPlain env bk row.plainTags pairs).newPairs,
            err := none } := rfl

theorem SliceContains_iff (l : List String) (s : String) : SliceContains l s = true ↔ s ∈ l := by
  simp [SliceContains, List.contains, List.elem_iff]

theorem populate_spec (env : Env) (bk : Backend) (row : Row) (pairs : TagPairs) :
    (∃ p : String,
      resolveRandTags (pairs ++ (CreateTagsFromPlain env bk row.plainTags pairs).newPairs)
          row.plainTags = Except.error p ∧
      PopulateRowBeforeSave env bk row pairs =
        { backend := (CreateTagsFromPlain env bk row.plainTags pairs).backend, row := row,
          newPairs := (CreateTagsFromPlain env bk row.plainTags pairs).newPairs,
          err := some (PopErr.missingTagPair p) }) ∨
    (∃ rts : List String,
      resolveRandTags (pairs ++ (CreateTagsFromPlain env bk row.plainTags pairs).newPairs)
          row.plainTags = Except.ok rts ∧
      ((env.encrypt row.decrypted row.Nonce bk.key = none ∧
        PopulateRowBeforeSave env bk row pairs =
          { backend := (CreateTagsFromPlain env bk row.plainTags pairs).backend,
            row := { row with RandomTags := rts },
            newPairs := (CreateTagsFromPlain env bk row.plainTags pairs).newPairs,
            err := some PopErr.encryptData }) ∨
       (∃ enc : Bytes, env.encrypt row.decrypted row.Nonce bk.key = some enc ∧
        PopulateRowBeforeSave env bk row pairs =
          { backend := (CreateTagsFromPlain env bk row.plainTags pairs).backend,
            row := { row with RandomTags := rts, Encrypted := enc },
            newPairs := (CreateTagsFromPlain env bk row.plainTags pairs).newPairs,
            err := none }))) := by
  have hpe := populate_eq env bk row pairs
  cases hres : resolveRandTags (pairs ++ (CreateTagsFromPlain env bk row.plainTags pairs).newPairs)
      row.plainTags with
  | error p =>
    left
    refine ⟨p, rfl, ?_⟩
    rw [hpe, hres]
  | ok rts =>
    right
    cases henc : env.encrypt row.decrypted row.Nonce bk.key with
    | none =>
      refine ⟨rts, rfl, Or.inl ⟨rfl, ?_⟩⟩
      rw [hpe, hres, henc]
    | some enc =>
      refine ⟨rts, rfl, Or.inr ⟨enc, rfl, ?_⟩⟩
      rw [hpe, hres, henc]

/-- C2: for every environment (hence every combination of per-tag
success/failure outcomes), backend, plaintags and knownPairs, the error
returned by CreateTagsFromPlain is nil. -/
theorem c2_createTagsFromPlain_error_always_nil (env : Env) (bk : Backend)
    (plaintags : List String) (pairs : TagPairs) :
    (CreateTagsFromPlain env bk plaintags pairs).err = none := rfl

/-- C3: the plaintext values of newPairs are exactly the missing tags, in the
relative order in which they occur while scanning plaintags, with the entries
whose launch failed removed; in particular they form a sublist of the missing
tags in scan order. -/
theorem c3_newPairs_order_preserving (env : Env) (bk : Backend) (plaintags : List String)
    (pairs : TagPairs) :
    ((CreateTagsFromPlain env bk plaintags pairs).newPairs.map TagPair.Plain)
      = filterSucc env bk.key (missingPlain plaintags pairs) 0 ∧
    List.Sublist ((CreateTagsFromPlain env bk plaintags pairs).newPairs.map TagPair.Plain)
      (missingPlain plaintags pairs) := by
  refine ⟨createTags_newPairs_map_plain env bk plaintags pairs, ?_⟩
  rw [createTags_newPairs_map_plain]
  exact filterSucc_sublist env bk.key (missingPlain plaintags pairs) 0

/-- C4, counterexample: with plaintags = ["a", "a"], no known pairs and every
creation succeeding, CreateTagsFromPlain returns two TagPairs with plaintext
"a", not exactly one. -/
theorem c4_counterexample_duplicate_plaintags :
    (TagPairs.AllPlain (CreateTagsFromPlain envAllOk bk0 ["a", "a"] []).newPairs).count "a" = 2 ∧
    (TagPairs.AllPlain (CreateTagsFromPlain envAllOk bk0 ["a", "a"] []).newPairs).count "a" ≠ 1 := by
  decide

/-- C4, amended: for a plaintext tag p not among the plaintexts of knownPairs,
with every per-tag creation succeeding, CreateTagsFromPlain returns one new
TagPair with plaintext p per occurrence of p in plaintags (so exactly one when
p occurs exactly once), and every returned TagPair's random field has length 9
and draws its characters from the 36-symbol lowercase-alphanumeric alphabet. -/
theorem c4_one_pair_per_missing_occurrence (env : Env) (bk : Backend) (plaintags : List String)
    (pairs : TagPairs) (p : String)
    (hall : ∀ (j : Nat) (q : String), (CreateTagOutcome env bk.key j q).isSome = true)
    (hp : SliceContains (TagPairs.AllPlain pairs) p = false) :
    (TagPairs.AllPlain (CreateTagsFromPlain env bk plaintags pairs).newPairs).count p
      = plaintags.count p ∧
    (CreateTagsFromPlain env bk plaintags pairs).newPairs.all randomWellFormed = true := by
  constructor
  · rw [TagPairs.AllPlain, createTags_newPairs_map_plain,
      filterSucc_all_succeed env bk.key hall]
    simp only [missingPlain]
    exact List.count_filter (by simp [hp])
  · rw [List.all_eq_true]
    intro pr hpr
    obtain ⟨j, q, hout⟩ := createTags_mem_outcome env bk plaintags pairs pr hpr
    have hrand := CreateTagOutcome_random env bk.key j q pr hout
    simp only [randomWellFormed, Bool.and_eq_true, beq_iff_eq, List.all_eq_true]
    constructor
    · rw [hrand, RandomString_length]
    · intro c hc
      rw [hrand] at hc
      have hmem := RandomString_mem RANDOM_TAG_ALPHABET RANDOM_TAG_LENGTH (env.entropy j)
        (by decide) c hc
      exact List.elem_iff.mpr hmem

/-- C4, witness: with plaintags = ["a"], no known pairs and every creation
succeeding, exactly one TagPair with plaintext "a" is returned and its random
field is well-formed. -/
theorem c4_witness :
    (TagPairs.AllPlain (CreateTagsFromPlain envAllOk bk0 ["a"] []).newPairs).count "a"
      = (["a"] : List String).count "a" ∧
    (CreateTagsFromPlain envAllOk bk0 ["a"] []).newPairs.all randomWellFormed = true :=
  c4_one_pair_per_missing_occurrence envAllOk bk0 ["a"] [] "a" (fun _ _ => rfl) rfl

/-- C5: a plaintext tag already among the plaintexts of knownPairs is never
re-created: no returned TagPair carries it. -/
theorem c5_known_plaintags_not_recreated (env : Env) (bk : Backend) (plaintags : List String)
    (pairs : TagPairs) (p : String) (hp : p ∈ TagPairs.AllPlain pairs) :
    p ∉ TagPairs.AllPlain (CreateTagsFromPlain env bk plaintags pairs).newPairs := by
  intro hmem
  rw [TagPairs.AllPlain, createTags_newPairs_map_plain] at hmem
  have h2 : p ∈ missingPlain plaintags pairs :=
    (filterSucc_sublist env bk.key (missingPlain plaintags pairs) 0).subset hmem
  rw [missingPlain, List.mem_filter] at h2
  obtain ⟨-, h3⟩ := h2
  rw [Bool.not_eq_eq_eq_not, Bool.not_true] at h3
  exact absurd (SliceContains_iff (TagPairs.AllPlain pairs) p |>.mpr hp) (by simp [h3])

/-- C5, witness: "a" is covered by the known pair pairA, so the batch for
["b", "a"] creates no TagPair with plaintext "a". -/
theorem c5_witness :
    "a" ∈ TagPairs.AllPlain [pairA] ∧
    "a" ∉ TagPairs.AllPlain (CreateTagsFromPlain envAllOk bk0 ["b", "a"] [pairA]).newPairs :=
  ⟨by decide, c5_known_plaintags_not_recreated envAllOk bk0 ["b", "a"] [pairA] "a" (by decide)⟩

/-- C1: evaluation at the failing input.  With no known pairs and every save
failing, newPairs is empty, so allPairs = knownPairs ++ newPairs is empty while
row.plainTags = ["a"] is not; yet PopulateRowBeforeSave returns a nil error and
an empty randomTags list instead of a MissingTagPairError naming "a": the
inner scan's i == len-1 exit never fires when allPairs is empty. -/
theorem c1_missing_error_skipped_on_empty_allPairs :
    rowA.plainTags = ["a"] ∧
    ([] : TagPairs) ++ (PopulateRowBeforeSave envSaveFail bk0 rowA []).newPairs = [] ∧
    (PopulateRowBeforeSave envSaveFail bk0 rowA []).err = none ∧
    (PopulateRowBeforeSave envSaveFail bk0 rowA []).row.RandomTags = [] := by
  decide

/-- C6: on success, row.RandomTags resolves each plain tag to the Random field
of the first TagPair with equal plaintext in knownPairs ++ newPairs, scanned
knownPairs first (first match wins), tags without any match being skipped. -/
theorem c6_first_match_wins (env : Env) (bk : Backend) (row : Row) (pairs : TagPairs)
    (h : (PopulateRowBeforeSave env bk row pairs).err = none) :
    (PopulateRowBeforeSave env bk row pairs).row.RandomTags =
      firstMatchRandoms (pairs ++ (PopulateRowBeforeSave env bk row pairs).newPairs)
        row.plainTags := by
  rcases populate_spec env bk row pairs with ⟨q, hres, heq⟩ | ⟨rts, hres, hrest⟩
  · rw [heq] at h
    simp at h
  · rcases hrest with ⟨henc, heq⟩ | ⟨enc, henc, heq⟩
    · rw [heq] at h
      simp at h
    · rw [heq]
      exact resolveRandTags_ok (pairs ++ (CreateTagsFromPlain env bk row.plainTags pairs).newPairs)
        row.plainTags rts hres

/-- C6, witness: a concrete successful population resolving "a" via the known
pair pairA. -/
theorem c6_witness :
    (PopulateRowBeforeSave envAllOk bk0 rowA [pairA]).err = none ∧
    (PopulateRowBeforeSave envAllOk bk0 rowA [pairA]).row.RandomTags =
      firstMatchRandoms ([pairA] ++ (PopulateRowBeforeSave envAllOk bk0 rowA [pairA]).newPairs)
        rowA.plainTags :=
  ⟨by decide, c6_first_match_wins envAllOk bk0 rowA [pairA] (by decide)⟩

/-- C7: when PopulateRowBeforeSave returns a MissingTagPairError, the named
plaintext is a plain tag of the row with no match in knownPairs ++ newPairs,
and the row's encrypted and randomTags fields are left unchanged. -/
theorem c7_missing_error_names_tag_row_unchanged (env : Env) (bk : Backend) (row : Row)
    (pairs : TagPairs) (p : String)
    (h : (PopulateRowBeforeSave env bk row pairs).err = some (PopErr.missingTagPair p)) :
    p ∈ row.plainTags ∧
    p ∉ TagPairs.AllPlain (pairs ++ (PopulateRowBeforeSave env bk row pairs).newPairs) ∧
    (PopulateRowBeforeSave env bk row pairs).row.Encrypted = row.Encrypted ∧
    (PopulateRowBeforeSave env bk row pairs).row.RandomTags = row.RandomTags := by
  rcases populate_spec env bk row pairs with ⟨q, hres, heq⟩ | ⟨rts, hres, hrest⟩
  · rw [heq] at h
    simp only [Option.some.injEq, PopErr.missingTagPair.injEq] at h
    subst h
    obtain ⟨hq, hall⟩ := resolveRandTags_error
      (pairs ++ (CreateTagsFromPlain env bk row.plainTags pairs).newPairs) row.plainTags q hres
    rw [heq]
    refine ⟨hq, ?_, rfl, rfl⟩
    intro hmem
    rw [TagPairs.AllPlain, List.mem_map] at hmem
    obtain ⟨pr, hpr, hplain⟩ := hmem
    exact hall pr hpr hplain
  · rcases hrest with ⟨henc, heq⟩ | ⟨enc, henc, heq⟩ <;> rw [heq] at h <;> simp at h

/-- C7, witness: knownPairs = [pairB], the row's tag "a" fails to be created
(every save fails), so population aborts naming "a" and leaves the row
unchanged. -/
theorem c7_witness :
    (PopulateRowBeforeSave envSaveFail bk0 rowA [pairB]).err
      = some (PopErr.missingTagPair "a") ∧
    "a" ∈ rowA.plainTags ∧
    "a" ∉ TagPairs.AllPlain ([pairB] ++ (PopulateRowBeforeSave envSaveFail bk0 rowA [pairB]).newPairs) ∧
    (PopulateRowBeforeSave envSaveFail bk0 rowA [pairB]).row.Encrypted = rowA.Encrypted ∧
    (PopulateRowBeforeSave envSaveFail bk0 rowA [pairB]).row.RandomTags = rowA.RandomTags :=
  ⟨by decide,
    c7_missing_error_names_tag_row_unchanged envSaveFail bk0 rowA [pairB] "a" (by decide)⟩

/-- C8: evaluation at the failing input.  The same empty-allPairs run as C1
returns success, yet randomTags has length 0 while plainTags has length 1, so
the one-random-tag-per-plain-tag postcondition fails on a successful call. -/
theorem c8_success_randomTags_length_mismatch :
    (PopulateRowBeforeSave envSaveFail bk0 rowA []).err = none ∧
    ((PopulateRowBeforeSave envSaveFail bk0 rowA []).row.RandomTags).length = 0 ∧
    rowA.plainTags.length = 1 := by
  decide

/-- C9: whenever PopulateRowBeforeSave returns an error, it still returns the
newPairs produced by batch creation, and the backend keeps every TagPair
persisted during the call: its saved list is the original list extended by
exactly the successfully created pairs, with nothing rolled back. -/
theorem c9_error_returns_newPairs_saves_kept (env : Env) (bk : Backend) (row : Row)
    (pairs : TagPairs) (e : PopErr)
    (h : (PopulateRowBeforeSave env bk row pairs).err = some e) :
    (PopulateRowBeforeSave env bk row pairs).newPairs
      = (CreateTagsFromPlain env bk row.plainTags pairs).newPairs ∧
    (PopulateRowBeforeSave env bk row pairs).backend.saved
      = bk.saved ++ (PopulateRowBeforeSave env bk row pairs).newPairs := by
  rcases populate_spec env bk row pairs with ⟨q, hres, heq⟩ | ⟨rts, hres, hrest⟩
  · rw [heq]
    exact ⟨rfl, createTags_saved env bk row.plainTags pairs⟩
  · rcases hrest with ⟨henc, heq⟩ | ⟨enc, henc, heq⟩ <;> rw [heq] <;>
      exact ⟨rfl, createTags_saved env bk row.plainTags pairs⟩

/-- C9, witness: the aborting population of c7_witness still reports the (here
empty) newPairs and leaves the backend's saved list intact. -/
theorem c9_witness :
    (PopulateRowBeforeSave envSaveFail bk0 rowA [pairB]).err
      = some (PopErr.missingTagPair "a") ∧
    (PopulateRowBeforeSave envSaveFail bk0 rowA [pairB]).newPairs
      = (CreateTagsFromPlain envSaveFail bk0 rowA.plainTags [pairB]).newPairs ∧
    (PopulateRowBeforeSave envSaveFail bk0 rowA [pairB]).backend.saved
      = bk0.saved ++ (PopulateRowBeforeSave envSaveFail bk0 rowA [pairB]).newPairs :=
  ⟨by decide,
    c9_error_returns_newPairs_saves_kept envSaveFail bk0 rowA [pairB]
      (PopErr.missingTagPair "a") (by decide)⟩

/-- C10: if every plain tag resolves but payload encryption fails, the error is
returned with row.Encrypted unchanged while row.RandomTags already holds the
newly resolved random tags (the mutation is not rolled back). -/
theorem c10_encrypt_fail_keeps_randomTags_mutation (env : Env) (bk : Backend) (row : Row)
    (pairs : TagPairs)
    (h : (PopulateRowBeforeSave env bk row pairs).err = some PopErr.encryptData) :
    (PopulateRowBeforeSave env bk row pairs).row.Encrypted = row.Encrypted ∧
    resolveRandTags (pairs ++ (PopulateRowBeforeSave env bk row pairs).newPairs) row.plainTags
      = Except.ok ((PopulateRowBeforeSave env bk row pairs).row.RandomTags) := by
  rcases populate_spec env bk row pairs with ⟨q, hres, heq⟩ | ⟨rts, hres, hrest⟩
  · rw [heq] at h
    simp at h
  · rcases hrest with ⟨henc, heq⟩ | ⟨enc, henc, heq⟩
    · rw [heq]
      exact ⟨rfl, hres⟩
    · rw [heq] at h
      simp at h

/-- C10, witness: payload encryption of [1] fails after "a" resolved via pairA;
the row keeps its old Encrypted value and carries the resolved random tags. -/
theorem c10_witness :
    (PopulateRowBeforeSave envEncFail bk0 rowA [pairA]).err = some PopErr.encryptData ∧
    (PopulateRowBeforeSave envEncFail bk0 rowA [pairA]).row.Encrypted = rowA.Encrypted ∧
    resolveRandTags ([pairA] ++ (PopulateRowBeforeSave envEncFail bk0 rowA [pairA]).newPairs)
        rowA.plainTags
      = Except.ok ((PopulateRowBeforeSave envEncFail bk0 rowA [pairA]).row.RandomTags) :=
  ⟨by decide, c10_encrypt_fail_keeps_randomTags_mutation envEncFail bk0 rowA [pairA] (by decide)⟩

end Cryptag
